import Mathlib

/-!
Shallow embedding of the playoff-simulation repository: the Monte Carlo
simulator of simulator.py, the Elo-style rating model of elo_calculator.py
and the post-processing of analyzer.py.  Python floats are modelled as
rationals (reals where a transcendental power is taken), dicts as total
functions with the documented default values, and the random source as an
explicit stream of unit-interval draws threaded through every function
that consumes randomness.
-/

/-- One row of the standings table (a standings dict entry of the source). -/
structure TeamStanding where
  team : Nat
  played : Nat
  wins : Nat
  losses : Nat
  points : Int
  nrr : Rat
deriving DecidableEq, Inhabited

/-- One remaining fixture: home team id and away team id. -/
structure Fixture where
  homeTeam : Nat
  awayTeam : Nat
deriving DecidableEq, Inhabited

/-- One recent-form outcome, the characters W, L, N of a form record. -/
inductive FormResult where
  | W
  | L
  | N
deriving DecidableEq

/-- The recent-form record of one team, most recent result first. -/
structure FormRecord where
  teamId : Nat
  recentForm : List FormResult
deriving DecidableEq

/-- Home/away win-rate record of one team. -/
structure HomeAwaySplit where
  teamId : Nat
  homeWinRate : Rat
  awayWinRate : Rat
deriving DecidableEq

/-- Pointwise update of a function, modelling assignment to a dict key. -/
def setFn {β : Type} (f : Nat → β) (a : Nat) (v : β) : Nat → β :=
  fun x => if x = a then v else f x

/-- Comparison used by every sorted call of the source: key is the tuple
(points, nrr) compared lexicographically, reverse (descending) order.
keyGeB a b says a may come no later than b, so that equal keys keep their
input order, as Python's stable sort does. -/
def keyGeB (a b : TeamStanding) : Bool :=
  decide (b.points < a.points) ||
    (decide (a.points = b.points) && decide (b.nrr ≤ a.nrr))

/-- Insert into a descending-sorted list, keeping the inserted element,
which originally came first, ahead of later elements with an equal key. -/
def insertDesc (a : TeamStanding) : List TeamStanding → List TeamStanding
  | [] => [a]
  | b :: bs => if keyGeB a b then a :: b :: bs else b :: insertDesc a bs

/-- The stable descending sort by (points, nrr) used everywhere final or
current rankings are needed in the source. -/
def sortStandings : List TeamStanding → List TeamStanding
  | [] => []
  | a :: as => insertDesc a (sortStandings as)

/-- One random.random() draw: the head of the draw stream.  An actual
generator yields values at least 0 and below 1; an exhausted stream keeps
yielding 0, itself a legal draw. -/
def nextDraw (s : List Rat) : Rat × List Rat := (s.headD 0, s.tail)

/-- random.uniform a b, scaling one unit draw into the interval. -/
def uniformDraw (a b : Rat) (s : List Rat) : Rat × List Rat :=
  (a + (b - a) * (nextDraw s).1, (nextDraw s).2)

/-- Python round(x, 3), modelled on rationals, ties rounded upward. -/
def round3 (q : Rat) : Rat := ((round (q * 1000) : Int) : Rat) / 1000

/-- Swap two positions of a list; out-of-range indices leave it unchanged. -/
def swapPositions {α : Type} (l : List α) (i j : Nat) : List α :=
  match l[i]?, l[j]? with
  | some a, some b => (l.set i b).set j a
  | _, _ => l

/-- random.shuffle modelled as a Fisher-Yates walk from the top index down
to 1, each step turning one unit draw into an index at most i+1.  A list
of length at most one is returned unchanged with no draw consumed, exactly
as in the source, and that is the only case the simulator's conditional
path ever exercises below. -/
def shuffleGo {α : Type} : List α → Nat → List Rat → List α × List Rat
  | l, 0, s => (l, s)
  | l, i + 1, s =>
    let u := (nextDraw s).1
    let j := min (Int.toNat ⌊u * ((i : Rat) + 2)⌋) (i + 1)
    shuffleGo (swapPositions l (i + 1) j) i (nextDraw s).2

/-- random.shuffle of a whole list. -/
def pyShuffle {α : Type} (l : List α) (s : List Rat) : List α × List Rat :=
  shuffleGo l (l.length - 1) s

/-- The standings update of simulator.py after a simulated match: walk the
standings list in order; the winner row gains a match, a win and 2 points,
the loser row gains a match and a loss; each affected row consumes one
uniform(0.05, 0.15) draw for the simplified net-run-rate movement, rounded
to three decimals. -/
def updateStandings :
    List TeamStanding → Nat → Nat → List Rat → List TeamStanding × List Rat
  | [], _, _, s => ([], s)
  | t :: ts, w, l, s =>
    if t.team = w then
      let d := uniformDraw (1/20) (3/20) s
      let t1 : TeamStanding :=
        { t with played := t.played + 1, wins := t.wins + 1,
                 points := t.points + 2, nrr := round3 (t.nrr + d.1) }
      let rest := updateStandings ts w l d.2
      (t1 :: rest.1, rest.2)
    else if t.team = l then
      let d := uniformDraw (1/20) (3/20) s
      let t1 : TeamStanding :=
        { t with played := t.played + 1, losses := t.losses + 1,
                 nrr := round3 (t.nrr - d.1) }
      let rest := updateStandings ts w l d.2
      (t1 :: rest.1, rest.2)
    else
      let rest := updateStandings ts w l s
      (t :: rest.1, rest.2)

/-- The top four team ids of the sorted standings. -/
def getPlayoffTeams (standings : List TeamStanding) : List Nat :=
  ((sortStandings standings).take 4).map (fun t => t.team)

/-- simulate match: with the rating model the home-win probability comes
from the injected calculator's win-probability function, otherwise it is
one half; one unit draw decides the match, home team winning on a draw
strictly below the probability. -/
noncomputable def simulateMatch (eloP : Nat → Nat → Real) (m : Fixture)
    (useElo : Bool) (s : List Rat) : Nat × List Rat :=
  let p : Real := if useElo then eloP m.homeTeam m.awayTeam else 1/2
  (if ((nextDraw s).1 : Real) < p then m.homeTeam else m.awayTeam,
   (nextDraw s).2)

/-- Play every fixture of a list in order on a working standings copy. -/
noncomputable def playMatches (eloP : Nat → Nat → Real) (useElo : Bool) :
    List Fixture → List TeamStanding → List Rat → List TeamStanding × List Rat
  | [], sim, s => (sim, s)
  | m :: ms, sim, s =>
    let wres := simulateMatch eloP m useElo s
    let loser := if wres.1 = m.homeTeam then m.awayTeam else m.homeTeam
    let upd := updateStandings sim wres.1 loser wres.2
    playMatches eloP useElo ms upd.1 upd.2

/-- copy.deepcopy of the standings: a deep copy yields an equal value that
shares no mutable state with the original, so on values it is the
identity. -/
def cloneStandings (l : List TeamStanding) : List TeamStanding := l

/-- Record one trial's final table: the team at 0-indexed rank pos gets
its position counter at slot pos incremented, and its qualification
counter incremented when pos is below 4. -/
def recordPositions :
    List TeamStanding → Nat → (Nat → Nat) → (Nat → List Nat) →
      (Nat → Nat) × (Nat → List Nat)
  | [], _, qc, pc => (qc, pc)
  | t :: ts, pos, qc, pc =>
    let pc1 := setFn pc t.team ((pc t.team).set pos ((pc t.team).getD pos 0 + 1))
    let qc1 := if pos < 4 then setFn qc t.team (qc t.team + 1) else qc
    recordPositions ts (pos + 1) qc1 pc1

/-- The trial loop of run simulation: each trial clones the authoritative
standings, plays out the whole remaining schedule, sorts the final table
and records positions and qualification. -/
noncomputable def runTrials (standings : List TeamStanding)
    (schedule : List Fixture) (eloP : Nat → Nat → Real) (useElo : Bool) :
    Nat → (Nat → Nat) → (Nat → List Nat) → List Rat →
      (Nat → Nat) × (Nat → List Nat) × List Rat
  | 0, qc, pc, s => (qc, pc, s)
  | n + 1, qc, pc, s =>
    let played := playMatches eloP useElo schedule (cloneStandings standings) s
    let sorted := sortStandings played.1
    let rec1 := recordPositions sorted 0 qc pc
    runTrials standings schedule eloP useElo n rec1.1 rec1.2 played.2

/-- The two result dicts of run simulation, modelled as total functions on
team ids. -/
structure SimResult where
  qualificationProbability : Nat → Rat
  positionProbability : Nat → List Rat

/-- run simulation of simulator.py: the qualification counters start at 0
and the position counters at a hard-coded list of ten zero slots for every
team; after all trials every counter is divided by the trial count. -/
noncomputable def runSimulation (standings : List TeamStanding)
    (schedule : List Fixture) (eloP : Nat → Nat → Real) (iterations : Nat)
    (useElo : Bool) (s : List Rat) : SimResult :=
  let r := runTrials standings schedule eloP useElo iterations
    (fun _ => 0) (fun _ => List.replicate 10 0) s
  { qualificationProbability := fun t => ((r.1 t : Rat)) / (iterations : Rat)
    positionProbability := fun t =>
      (r.2.1 t).map (fun c : Nat => ((c : Rat) / (iterations : Rat))) }

/-- The fixed recency weights of the form bonus. -/
def formWeights : List Rat := [1, 4/5, 3/5, 2/5, 1/5]

/-- The weighted form sum: the iteration over the recent-form sequence
stops once the weights run out, a win adds 10 times the weight, a loss
subtracts 5 times the weight, a no-result adds nothing. -/
def formBonusList : List FormResult → List Rat → Rat
  | _, [] => 0
  | [], _ :: _ => 0
  | r :: rs, w :: ws =>
    (match r with
      | FormResult.W => 10 * w
      | FormResult.L => -5 * w
      | FormResult.N => 0) + formBonusList rs ws

/-- calculate form bonus of elo_calculator.py: the first form record of
the team is looked up; a missing record, like an empty sequence, gives 0. -/
def formBonus (formFactor : List FormRecord) (tid : Nat) : Rat :=
  match formFactor.find? (fun f => f.teamId == tid) with
  | none => 0
  | some f => if f.recentForm = [] then 0 else formBonusList f.recentForm formWeights

/-- The total adjustment one standings row adds to its team's base rating:
points, net-run-rate, form bonus, and, only when at least one match was
played, the win-percentage term. -/
def standingContribution (formFactor : List FormRecord) (t : TeamStanding) : Rat :=
  (t.points : Rat) * 15 + t.nrr * 50 + formBonus formFactor t.team +
    (if 0 < t.played then ((t.wins : Rat) / (t.played : Rat) - 1/2) * 100 else 0)

/-- initialize elo ratings of elo_calculator.py: every team starts at the
base 1500 (the documented default for absent teams as well) and each
standings row then adds its adjustments to its team's entry. -/
def initElo (standings : List TeamStanding) (formFactor : List FormRecord) :
    Nat → Rat :=
  standings.foldl
    (fun r t => setFn r t.team (r t.team + standingContribution formFactor t))
    (fun _ => 1500)

/-- The home-advantage value before the floor: the first home/away record
of the home team scales the advantage by its home win rate; a missing
record leaves it 0. -/
def homeAdvantageOf (homeAway : List HomeAwaySplit) (tid : Nat) : Rat :=
  match homeAway.find? (fun e => e.teamId == tid) with
  | some e => (e.homeWinRate - 1/2) * 100
  | none => 0

/-- The home win rate the source effectively uses: the looked-up rate, or
the documented neutral default of one half when the team is absent. -/
def homeWinRateOf (homeAway : List HomeAwaySplit) (tid : Nat) : Rat :=
  match homeAway.find? (fun e => e.teamId == tid) with
  | some e => e.homeWinRate
  | none => 1/2

/-- calculate win probability of elo_calculator.py: the home rating is
raised by the home advantage floored at 30, and the classic logistic
formula gives the home-team win probability. -/
noncomputable def calcWinProb (ratings : Nat → Real)
    (homeAway : List HomeAwaySplit) (home away : Nat) : Real :=
  let adjustedHome : Real :=
    ratings home + max 30 ((homeAdvantageOf homeAway home : Rat) : Real)
  1 / (1 + (10 : Real) ^ ((ratings away - adjustedHome) / 400))

/-- update ratings of elo_calculator.py: both participants move by the
k-factor times the gap between actual and expected score, the expectation
being the pre-update win probability; the new ratings are written back to
the mapping and also returned. -/
noncomputable def updateRatings (ratings : Nat → Real)
    (homeAway : List HomeAwaySplit) (home away : Nat) (homeWon : Bool)
    (k : Real) : (Nat → Real) × Real × Real :=
  let expectedHome := calcWinProb ratings homeAway home away
  let expectedAway := 1 - expectedHome
  let actualHome : Real := if homeWon then 1 else 0
  let actualAway := 1 - actualHome
  let newHome := ratings home + k * (actualHome - expectedHome)
  let newAway := ratings away + k * (actualAway - expectedAway)
  (setFn (setFn ratings home newHome) away newAway, newHome, newAway)

/-- The forced-win loop of the conditional path simulator: the target team
wins each listed fixture, the opponent losing. -/
def forceWins (tid : Nat) :
    List Fixture → List TeamStanding → List Rat → List TeamStanding × List Rat
  | [], sim, s => (sim, s)
  | m :: ms, sim, s =>
    let loser := if tid = m.homeTeam then m.awayTeam else m.homeTeam
    let upd := updateStandings sim tid loser s
    forceWins tid ms upd.1 upd.2

/-- The forced-loss loop: the target team loses each listed fixture. -/
def forceLosses (tid : Nat) :
    List Fixture → List TeamStanding → List Rat → List TeamStanding × List Rat
  | [], sim, s => (sim, s)
  | m :: ms, sim, s =>
    let winner := if tid = m.homeTeam then m.awayTeam else m.homeTeam
    let upd := updateStandings sim winner tid s
    forceLosses tid ms upd.1 upd.2

/-- One trial of simulate-with-fixed-wins: clone the standings, shuffle
the team's remaining fixtures, force the first wins of them to wins and
the rest to losses, simulate every other fixture of the schedule with the
rating model, and report whether the team ends in the top four. -/
noncomputable def simFixedTrial (standings : List TeamStanding)
    (schedule : List Fixture) (eloP : Nat → Nat → Real) (tid : Nat)
    (wins : Nat) (remaining : List Fixture) (s : List Rat) : Bool × List Rat :=
  let shuf := pyShuffle remaining s
  let won := forceWins tid (shuf.1.take wins) (cloneStandings standings) shuf.2
  let lost := forceLosses tid (shuf.1.drop wins) won.1 won.2
  let others := schedule.filter (fun m => decide (m ∉ remaining))
  let final := playMatches eloP true others lost.1 lost.2
  (decide (tid ∈ getPlayoffTeams final.1), final.2)

/-- The trial loop of simulate-with-fixed-wins, counting qualifications. -/
noncomputable def simFixedCount (standings : List TeamStanding)
    (schedule : List Fixture) (eloP : Nat → Nat → Real) (tid : Nat)
    (wins : Nat) (remaining : List Fixture) :
    Nat → List Rat → Nat × List Rat
  | 0, s => (0, s)
  | n + 1, s =>
    let trial := simFixedTrial standings schedule eloP tid wins remaining s
    let rest := simFixedCount standings schedule eloP tid wins remaining n trial.2
    (rest.1 + (if trial.1 then 1 else 0), rest.2)

/-- simulate-with-fixed-wins of simulator.py: the fraction of trials in
which the team qualifies. -/
noncomputable def simulateWithFixedWins (standings : List TeamStanding)
    (schedule : List Fixture) (eloP : Nat → Nat → Real) (tid : Nat)
    (wins : Nat) (remaining : List Fixture) (iterations : Nat)
    (s : List Rat) : Rat × List Rat :=
  let c := simFixedCount standings schedule eloP tid wins remaining iterations s
  (((c.1 : Rat)) / (iterations : Rat), c.2)

/-- One win-count row of the path-to-playoffs result. -/
structure PathEntry where
  potentialPoints : Int
  qualificationProbability : Rat
deriving DecidableEq

/-- The path-to-playoffs result: the win-count rows in insertion order,
plus the two threshold keys that are set only when the loop stops early. -/
structure PathResult where
  entries : List (Nat × PathEntry)
  minWinsNeeded : Option Nat
  minPointsNeeded : Option Int
deriving DecidableEq

/-- The win-count loop of calculate path to playoffs: each candidate win
count gets its potential points and simulated qualification probability;
the loop stops, recording the threshold keys, the first time the
probability reaches nine tenths. -/
noncomputable def calcPathLoop (standings : List TeamStanding)
    (schedule : List Fixture) (eloP : Nat → Nat → Real) (tid : Nat)
    (iterations : Nat) (currentPoints : Int) (remaining : List Fixture) :
    List Nat → List Rat → PathResult
  | [], _ => ⟨[], none, none⟩
  | w :: ws, s =>
    let sim := simulateWithFixedWins standings schedule eloP tid w remaining iterations s
    let pts := currentPoints + (w : Int) * 2
    if 9/10 ≤ sim.1 then
      ⟨[(w, ⟨pts, sim.1⟩)], some w, some pts⟩
    else
      let rest := calcPathLoop standings schedule eloP tid iterations
        currentPoints remaining ws sim.2
      ⟨(w, ⟨pts, sim.1⟩) :: rest.entries, rest.minWinsNeeded, rest.minPointsNeeded⟩

/-- calculate path to playoffs of simulator.py: a team absent from the
standings gets the degenerate single zero row; otherwise every win count
from 0 to the team's remaining-fixture count is tried in order. -/
noncomputable def calcPath (standings : List TeamStanding)
    (schedule : List Fixture) (eloP : Nat → Nat → Real) (tid : Nat)
    (iterations : Nat) (s : List Rat) : PathResult :=
  match standings.find? (fun t => t.team == tid) with
  | none => ⟨[(0, ⟨0, 0⟩)], none, none⟩
  | some ts =>
    let remaining := schedule.filter
      (fun m => m.homeTeam == tid || m.awayTeam == tid)
    calcPathLoop standings schedule eloP tid iterations ts.points remaining
      (List.range (remaining.length + 1)) s

/-- find current playoff cutoff of analyzer.py: the points of the team at
sorted index 3, or None with fewer than four teams. -/
def findCurrentPlayoffCutoff (standings : List TeamStanding) : Option Int :=
  let sorted := sortStandings standings
  if 4 ≤ sorted.length then some ((sorted[3]?).getD default).points else none

/-- The total probability mass of finishing exactly fourth, summed over
the position-probability items. -/
def fourthPlaceMass (posItems : List (Nat × List Rat)) : Rat :=
  (posItems.map (fun p => p.2.getD 3 0)).sum

/-- Python int(), truncation toward zero. -/
def pyInt (q : Rat) : Int := if 0 ≤ q then ⌊q⌋ else ⌈q⌉

/-- calculate expected cutoff of analyzer.py over the position-probability
items of the simulation result (an association list in dict iteration
order).  The two averaged remaining-match quantities of the source are
computed and never read; they are kept here for fidelity (the rational
division is total where Python would divide by the length zero of empty
standings).  With zero fourth-place mass the fallback is
max(14, cutoff + 4), otherwise the weighted estimate is floored at
cutoff + 2, the weighted points being truncated to an integer. -/
def calculateExpectedCutoff (standings : List TeamStanding)
    (posItems : List (Nat × List Rat)) : Int :=
  let sorted := sortStandings standings
  let currentCutoff : Int :=
    if 4 ≤ sorted.length then ((sorted[3]?).getD default).points else 0
  let playedCount : Rat := ((standings.filter (fun t => t.played != 0)).length : Rat)
  let remainingMatchesPerTeam : Rat := 14 - playedCount / (standings.length : Rat)
  let _avgPointsPerTeam : Rat := remainingMatchesPerTeam * 2 * (1/2)
  let fourthProbs := posItems.map (fun p => (p.1, p.2.getD 3 0))
  let total := (fourthProbs.map (fun p => p.2)).sum
  if total = 0 then max 14 (currentCutoff + 4)
  else
    let weighted : Rat := fourthProbs.foldl (fun acc p =>
      match standings.find? (fun t => t.team == p.1) with
      | some ts =>
          acc + ((ts.points : Rat) + ((14 : Rat) - (ts.played : Rat)) * 1) * p.2 / total
      | none => acc) 0
    max (pyInt weighted) (currentCutoff + 2)

/-- The mutable state a simulator instance owns: the authoritative
standings, the shared schedule and the injected calculator's rating
mapping. -/
structure SimulatorState where
  standings : List TeamStanding
  schedule : List Fixture
  ratings : Nat → Real

/-- run simulation threaded through the owning state: the trials read the
state, mutate only the per-trial clone of the standings, never call the
rating update, and hand the state back untouched. -/
noncomputable def runSimulationFromState (st : SimulatorState)
    (homeAway : List HomeAwaySplit) (iterations : Nat) (useElo : Bool)
    (s : List Rat) : SimResult × SimulatorState :=
  (runSimulation st.standings st.schedule (calcWinProb st.ratings homeAway)
    iterations useElo s, st)

/-- A five-team standings table, already in descending points order, with
team 4 currently fourth. -/
def exSt5 : List TeamStanding :=
  [⟨1, 0, 0, 0, 10, 0⟩, ⟨2, 0, 0, 0, 8, 0⟩, ⟨3, 0, 0, 0, 6, 0⟩,
   ⟨4, 0, 0, 0, 4, 0⟩, ⟨5, 0, 0, 0, 3, 0⟩]

/-- The genuine rating-model win-probability function built on the
five-team table with empty form and home/away data. -/
noncomputable def exElo : Nat → Nat → Real :=
  calcWinProb (fun t => ((initElo exSt5 [] t : Rat) : Real)) []

/-- Modelled from the spec: the claimed initialization formula of the
rating model, with winPct read as 0 when no matches were played, used only
to compare the claim's wording against the source's initialization. -/
def specInitRating (t : TeamStanding) (fb : Rat) : Rat :=
  1500 + (t.points : Rat) * 15 + t.nrr * 50 + fb +
    ((if t.played = 0 then 0 else (t.wins : Rat) / (t.played : Rat)) - 1/2) * 100

/-- Reading an updated dict function at the written key. -/
theorem setFn_same {β : Type} (f : Nat → β) (a : Nat) (v : β) :
    setFn f a v a = v := by
  simp [setFn]

/-- Reading an updated dict function at another key. -/
theorem setFn_ne {β : Type} (f : Nat → β) {a x : Nat} (h : x ≠ a) (v : β) :
    setFn f a v x = f x := by
  simp [setFn, h]

/-- Inserting into the descending sort permutes the element onto the list. -/
theorem insertDesc_perm (a : TeamStanding) (l : List TeamStanding) :
    (insertDesc a l).Perm (a :: l) := by
  induction l with
  | nil => simp [insertDesc]
  | cons b bs ih =>
    by_cases h : keyGeB a b
    · simp [insertDesc, h]
    · simp only [insertDesc, h, if_false]
      exact (ih.cons b).trans (List.Perm.swap a b bs)

/-- The stable sort is a permutation of its input. -/
theorem sortStandings_perm (l : List TeamStanding) : (sortStandings l).Perm l := by
  induction l with
  | nil => simp [sortStandings]
  | cons a as ih =>
    exact (insertDesc_perm a (sortStandings as)).trans (ih.cons a)

/-- Sorting keeps the length. -/
theorem sortStandings_length (l : List TeamStanding) :
    (sortStandings l).length = l.length :=
  (sortStandings_perm l).length_eq

/-- The standings update never changes the id column of the table. -/
theorem updateStandings_map_team (l : List TeamStanding) (w lo : Nat) (s : List Rat) :
    ((updateStandings l w lo s).1).map (fun t => t.team)
      = l.map (fun t => t.team) := by
  induction l generalizing s with
  | nil => simp [updateStandings]
  | cons t ts ih =>
    simp only [updateStandings]
    split_ifs with h1 h2 <;> simp [ih]

/-- Playing out a fixture list never changes the id column of the table. -/
theorem playMatches_map_team (eloP : Nat → Nat → Real) (ue : Bool)
    (ms : List Fixture) : ∀ (sim : List TeamStanding) (s : List Rat),
    ((playMatches eloP ue ms sim s).1).map (fun t => t.team)
      = sim.map (fun t => t.team) := by
  induction ms with
  | nil => intro sim s; simp [playMatches]
  | cons m ms ih =>
    intro sim s
    simp only [playMatches]
    rw [ih, updateStandings_map_team]

/-- Reading a position list at its freshly written slot. -/
theorem getD_set_self {l : List Nat} {k : Nat} (v : Nat) (h : k < l.length) :
    (l.set k v).getD k 0 = v := by
  induction l generalizing k with
  | nil => simp at h
  | cons a as ih =>
    cases k with
    | zero => simp
    | succ n => simpa using ih (by simpa using h)

/-- Reading a position list away from the written slot. -/
theorem getD_set_ne {l : List Nat} {k p : Nat} (v : Nat) (h : p ≠ k) :
    (l.set k v).getD p 0 = l.getD p 0 := by
  induction l generalizing k p with
  | nil => simp
  | cons a as ih =>
    cases k with
    | zero =>
      cases p with
      | zero => exact absurd rfl h
      | succ q => simp
    | succ n =>
      cases p with
      | zero => simp
      | succ q => simpa using ih (fun hq => h (by omega))

/-- Incrementing one in-range slot raises the list total by one. -/
theorem sum_set_incr {l : List Nat} {k : Nat} (h : k < l.length) :
    (l.set k (l.getD k 0 + 1)).sum = l.sum + 1 := by
  induction l generalizing k with
  | nil => simp at h
  | cons a as ih =>
    cases k with
    | zero => simp; omega
    | succ n =>
      have := ih (k := n) (by simpa using h)
      simp only [List.set, List.getD_cons_succ, List.sum_cons, this]
      omega

/-- A dict-style update commutes with reading every team's slot P. -/
theorem map_getD_setFn (T : List Nat) (pc : Nat → List Nat) (a : Nat)
    (L : List Nat) (P : Nat) :
    T.map (fun x => ((setFn pc a L) x).getD P 0)
      = T.map (setFn (fun x => (pc x).getD P 0) a (L.getD P 0)) := by
  have h : (fun x => ((setFn pc a L) x).getD P 0)
      = setFn (fun x => (pc x).getD P 0) a (L.getD P 0) := by
    funext x
    by_cases hx : x = a <;> simp [setFn, hx]
  rw [h]

/-- Writing one key of a counter dict moves the total over a duplicate-free
key list by the difference between the new and the old value. -/
theorem sum_map_setFn (T : List Nat) (hT : T.Nodup) (f : Nat → Nat) (a : Nat)
    (ha : a ∈ T) (v : Nat) :
    (T.map (setFn f a v)).sum + f a = (T.map f).sum + v := by
  induction T with
  | nil => cases ha
  | cons b bs ih =>
    rcases List.mem_cons.mp ha with rfl | hmem
    · have hnotin : a ∉ bs := (List.nodup_cons.mp hT).1
      have hmap : bs.map (setFn f a v) = bs.map f := by
        apply List.map_congr_left
        intro x hx
        refine setFn_ne f (fun hxa => hnotin ?_) v
        exact hxa ▸ hx
      simp only [List.map_cons, List.sum_cons, hmap, setFn_same]
      omega
    · have hba : b ≠ a := by
        rintro rfl
        exact (List.nodup_cons.mp hT).1 hmem
      have := ih (List.nodup_cons.mp hT).2 hmem
      simp only [List.map_cons, List.sum_cons, setFn_ne f hba]
      omega

/-- Recording a trial keeps every position list at its fixed ten slots. -/
theorem recordPositions_len (l : List TeamStanding) :
    ∀ (k : Nat) (qc : Nat → Nat) (pc : Nat → List Nat),
    (∀ x, (pc x).length = 10) →
    ∀ x, (((recordPositions l k qc pc).2) x).length = 10 := by
  induction l with
  | nil => intro k qc pc hlen x; simpa [recordPositions] using hlen x
  | cons t ts ih =>
    intro k qc pc hlen x
    simp only [recordPositions]
    apply ih
    intro y
    by_cases hy : y = t.team
    · subst hy; simp [setFn_same, List.length_set, hlen]
    · simp [setFn_ne _ hy, hlen]

/-- Recording one trial adds exactly one to the all-team total of slot P
when P is one of the ranks the trial assigns, and nothing otherwise. -/
theorem recordPositions_sum_at (T : List Nat) (hT : T.Nodup) (P : Nat)
    (hP : P < 10) : ∀ (l : List TeamStanding) (k : Nat) (qc : Nat → Nat)
    (pc : Nat → List Nat), (∀ x, (pc x).length = 10) →
    (∀ t ∈ l, t.team ∈ T) →
    (T.map (fun x => (((recordPositions l k qc pc).2) x).getD P 0)).sum
      = (T.map (fun x => (pc x).getD P 0)).sum
        + (if k ≤ P ∧ P < k + l.length then 1 else 0) := by
  intro l
  induction l with
  | nil =>
    intro k qc pc hlen hmem
    simp only [recordPositions, List.length_nil, Nat.add_zero]
    rw [if_neg (by omega)]
    simp
  | cons t ts ih =>
    intro k qc pc hlen hmem
    simp only [recordPositions]
    have hmem0 : t.team ∈ T := hmem t (List.mem_cons_self t ts)
    have hlen1 : ∀ x,
        ((setFn pc t.team
          ((pc t.team).set k ((pc t.team).getD k 0 + 1)) x)).length = 10 := by
      intro y
      by_cases hy : y = t.team
      · subst hy; simp [setFn_same, List.length_set, hlen]
      · simp [setFn_ne _ hy, hlen]
    rw [ih (k + 1) _ _ hlen1 (fun u hu => hmem u (List.mem_cons_of_mem t hu))]
    rw [map_getD_setFn]
    have hsum := sum_map_setFn T hT (fun x => (pc x).getD P 0) t.team hmem0
      (((pc t.team).set k ((pc t.team).getD k 0 + 1)).getD P 0)
    rcases eq_or_ne P k with hPk | hPk
    · subst hPk
      have hval : ((pc t.team).set P ((pc t.team).getD P 0 + 1)).getD P 0
          = (pc t.team).getD P 0 + 1 :=
        getD_set_self _ (by rw [hlen]; exact hP)
      rw [hval] at hsum
      rw [hval]
      simp only [List.length_cons]
      rw [if_neg (by omega), if_pos (by omega)]
      omega
    · have hval : ((pc t.team).set k ((pc t.team).getD k 0 + 1)).getD P 0
          = (pc t.team).getD P 0 := getD_set_ne _ hPk
      rw [hval] at hsum
      rw [hval]
      simp only [List.length_cons]
      have heq : (T.map (setFn (fun x => (pc x).getD P 0) t.team
          ((pc t.team).getD P 0))).sum
          = (T.map (fun x => (pc x).getD P 0)).sum := by omega
      rw [heq]
      split_ifs with h1 h2 <;> omega

/-- Recording a trial adds one to a team's position-list total for each of
its rows, every assigned rank landing inside the ten tracked slots. -/
theorem recordPositions_vec_sum : ∀ (l : List TeamStanding) (k : Nat)
    (qc : Nat → Nat) (pc : Nat → List Nat) (t : Nat),
    (∀ x, (pc x).length = 10) → k + l.length ≤ 10 →
    (((recordPositions l k qc pc).2) t).sum
      = (pc t).sum + (l.map (fun u => u.team)).count t := by
  intro l
  induction l with
  | nil => intro k qc pc t hlen hb; simp [recordPositions]
  | cons u us ih =>
    intro k qc pc t hlen hb
    simp only [recordPositions]
    have hlen1 : ∀ x,
        ((setFn pc u.team
          ((pc u.team).set k ((pc u.team).getD k 0 + 1)) x)).length = 10 := by
      intro y
      by_cases hy : y = u.team
      · subst hy; simp [setFn_same, List.length_set, hlen]
      · simp [setFn_ne _ hy, hlen]
    rw [ih (k + 1) _ _ t hlen1 (by simp at hb ⊢; omega)]
    have hk : k < 10 := by simp at hb; omega
    have hsum : ((pc u.team).set k ((pc u.team).getD k 0 + 1)).sum
        = (pc u.team).sum + 1 := sum_set_incr (by rw [hlen]; exact hk)
    by_cases ht : t = u.team
    · subst ht
      rw [setFn_same, hsum]
      simp [List.count_cons]
      omega
    · rw [setFn_ne _ ht]
      have : u.team ≠ t := fun h => ht h.symm
      simp [List.count_cons, this]

/-- Recording a trial adds to a team's qualification counter exactly its
number of rows among the first four ranks. -/
theorem recordPositions_qual : ∀ (l : List TeamStanding) (k : Nat)
    (qc : Nat → Nat) (pc : Nat → List Nat) (t : Nat),
    ((recordPositions l k qc pc).1) t
      = qc t + (((l.map (fun u => u.team)).take (4 - k)).count t) := by
  intro l
  induction l with
  | nil => intro k qc pc t; simp [recordPositions]
  | cons u us ih =>
    intro k qc pc t
    simp only [recordPositions]
    rw [ih (k + 1)]
    by_cases hk : k < 4
    · have h4 : 4 - k = (4 - (k + 1)) + 1 := by omega
      rw [if_pos hk, h4]
      simp only [List.map_cons, List.take_succ_cons, List.count_cons]
      by_cases ht : t = u.team
      · subst ht; rw [setFn_same]; simp; omega
      · rw [setFn_ne _ ht]
        have : u.team ≠ t := fun h => ht h.symm
        simp [this]
    · have h0 : 4 - k = 0 := by omega
      have h1 : 4 - (k + 1) = 0 := by omega
      rw [if_neg hk, h0, h1]
      simp

/-- Reading any slot of the fresh all-zero position list gives zero. -/
theorem getD_replicate_zero (n P : Nat) :
    (List.replicate n (0 : Nat)).getD P 0 = 0 := by
  induction n generalizing P with
  | zero => simp
  | succ m ih =>
    cases P with
    | zero => simp [List.replicate]
    | succ q => simp only [List.replicate, List.getD_cons_succ]; exact ih q

/-- A map of zeros sums to zero. -/
theorem sum_map_zero (T : List Nat) : (T.map (fun _ => (0 : Nat))).sum = 0 := by
  induction T with
  | nil => rfl
  | cons a as ih => simp only [List.map_cons, List.sum_cons, ih]

/-- Dividing every counter then summing equals summing then dividing. -/
theorem sum_map_div_nat (l : List Nat) (d : Rat) :
    (l.map (fun c : Nat => ((c : Rat) / d))).sum = ((l.sum : Rat)) / d := by
  induction l with
  | nil => simp
  | cons a as ih =>
    simp only [List.map_cons, List.sum_cons, List.sum_cons, ih]
    push_cast
    rw [add_div]

/-- Each trial's sorted table carries the same id column as the input. -/
theorem trial_map_team (standings : List TeamStanding) (schedule : List Fixture)
    (eloP : Nat → Nat → Real) (ue : Bool) (s : List Rat) :
    ((sortStandings
        ((playMatches eloP ue schedule (cloneStandings standings) s).1)).map
      (fun t => t.team)).Perm (standings.map (fun t => t.team)) := by
  have h1 := (sortStandings_perm
    ((playMatches eloP ue schedule (cloneStandings standings) s).1)).map
    (fun t => t.team)
  rw [playMatches_map_team] at h1
  exact h1

/-- The trial loop keeps every position list at ten slots. -/
theorem runTrials_len (standings : List TeamStanding) (schedule : List Fixture)
    (eloP : Nat → Nat → Real) (ue : Bool) : ∀ (n : Nat) (qc : Nat → Nat)
    (pc : Nat → List Nat) (s : List Rat), (∀ x, (pc x).length = 10) →
    ∀ x, (((runTrials standings schedule eloP ue n qc pc s).2.1) x).length = 10 := by
  intro n
  induction n with
  | zero => intro qc pc s hlen x; simpa [runTrials] using hlen x
  | succ m ih =>
    intro qc pc s hlen x
    simp only [runTrials]
    exact ih _ _ _ (recordPositions_len _ _ _ _ hlen) x

/-- Over a run with duplicate-free team ids, every tracked slot P below the
league size accumulates exactly the trial count across all teams. -/
theorem runTrials_sum_at (standings : List TeamStanding)
    (schedule : List Fixture) (eloP : Nat → Nat → Real) (ue : Bool)
    (hT : (standings.map (fun t => t.team)).Nodup) (P : Nat)
    (hP : P < standings.length) (h10 : standings.length ≤ 10) :
    ∀ (n : Nat) (qc : Nat → Nat) (pc : Nat → List Nat) (s : List Rat),
    (∀ x, (pc x).length = 10) →
    ((standings.map (fun t => t.team)).map (fun x =>
        (((runTrials standings schedule eloP ue n qc pc s).2.1) x).getD P 0)).sum
      = ((standings.map (fun t => t.team)).map (fun x => (pc x).getD P 0)).sum + n := by
  intro n
  induction n with
  | zero => intro qc pc s hlen; simp [runTrials]
  | succ m ih =>
    intro qc pc s hlen
    simp only [runTrials]
    rw [ih _ _ _ (recordPositions_len _ _ _ _ hlen)]
    set sorted := sortStandings
      ((playMatches eloP ue schedule (cloneStandings standings) s).1) with hsorted
    have hperm : (sorted.map (fun t => t.team)).Perm
        (standings.map (fun t => t.team)) :=
      trial_map_team standings schedule eloP ue s
    have hmem : ∀ t ∈ sorted, t.team ∈ standings.map (fun u => u.team) := by
      intro t ht
      exact hperm.mem_iff.mp (List.mem_map_of_mem _ ht)
    have hlength : sorted.length = standings.length := by
      have := hperm.length_eq
      simpa using this
    rw [recordPositions_sum_at (standings.map (fun t => t.team)) hT P
      (by omega) sorted 0 qc pc hlen hmem]
    rw [if_pos (by omega)]
    omega

/-- Each team's position-list total grows per trial by its multiplicity in
the id column (one, for duplicate-free standings). -/
theorem runTrials_vec_sum (standings : List TeamStanding)
    (schedule : List Fixture) (eloP : Nat → Nat → Real) (ue : Bool)
    (h10 : standings.length ≤ 10) : ∀ (n : Nat) (qc : Nat → Nat)
    (pc : Nat → List Nat) (s : List Rat) (t : Nat),
    (∀ x, (pc x).length = 10) →
    (((runTrials standings schedule eloP ue n qc pc s).2.1) t).sum
      = (pc t).sum + n * ((standings.map (fun u => u.team)).count t) := by
  intro n
  induction n with
  | zero => intro qc pc s t hlen; simp [runTrials]
  | succ m ih =>
    intro qc pc s t hlen
    simp only [runTrials]
    rw [ih _ _ _ t (recordPositions_len _ _ _ _ hlen)]
    set sorted := sortStandings
      ((playMatches eloP ue schedule (cloneStandings standings) s).1) with hsorted
    have hperm : (sorted.map (fun u => u.team)).Perm
        (standings.map (fun u => u.team)) :=
      trial_map_team standings schedule eloP ue s
    have hlength : sorted.length = standings.length := by
      have := hperm.length_eq
      simpa using this
    rw [recordPositions_vec_sum sorted 0 qc pc t hlen (by omega)]
    rw [hperm.count_eq]
    ring

/-- Each team's qualification counter grows per trial by at most its
multiplicity in the id column. -/
theorem runTrials_qual_le (standings : List TeamStanding)
    (schedule : List Fixture) (eloP : Nat → Nat → Real) (ue : Bool) :
    ∀ (n : Nat) (qc : Nat → Nat) (pc : Nat → List Nat) (s : List Rat) (t : Nat),
    ((runTrials standings schedule eloP ue n qc pc s).1) t
      ≤ qc t + n * ((standings.map (fun u => u.team)).count t) := by
  intro n
  induction n with
  | zero => intro qc pc s t; simp [runTrials]
  | succ m ih =>
    intro qc pc s t
    simp only [runTrials]
    refine le_trans (ih _ _ _ t) ?_
    set sorted := sortStandings
      ((playMatches eloP ue schedule (cloneStandings standings) s).1) with hsorted
    have hperm : (sorted.map (fun u => u.team)).Perm
        (standings.map (fun u => u.team)) :=
      trial_map_team standings schedule eloP ue s
    rw [recordPositions_qual sorted 0 qc pc t]
    have htake : (((sorted.map (fun u => u.team)).take (4 - 0)).count t)
        ≤ (standings.map (fun u => u.team)).count t := by
      calc ((sorted.map (fun u => u.team)).take (4 - 0)).count t
          ≤ (sorted.map (fun u => u.team)).count t :=
            (List.take_sublist _ _).count_le t
        _ = (standings.map (fun u => u.team)).count t := hperm.count_eq t
    have hmul : m * ((standings.map (fun u => u.team)).count t)
        + ((standings.map (fun u => u.team)).count t)
        = (m + 1) * ((standings.map (fun u => u.team)).count t) := by ring
    omega

/-- With an empty schedule every trial records the same sorted current
table, so the qualification counter grows per trial by the team's
multiplicity among the top four rows. -/
theorem runTrials_qual_empty (standings : List TeamStanding)
    (eloP : Nat → Nat → Real) (ue : Bool) :
    ∀ (n : Nat) (qc : Nat → Nat) (pc : Nat → List Nat) (s : List Rat) (t : Nat),
    ((runTrials standings [] eloP ue n qc pc s).1) t
      = qc t + n * ((((sortStandings standings).map (fun u => u.team)).take 4).count t) := by
  intro n
  induction n with
  | zero => intro qc pc s t; simp [runTrials]
  | succ m ih =>
    intro qc pc s t
    simp only [runTrials, playMatches, cloneStandings]
    rw [ih]
    rw [recordPositions_qual (sortStandings standings) 0 qc pc t]
    ring

/-- The logistic win probability is strictly positive. -/
theorem calcWinProb_pos (ratings : Nat → Real) (homeAway : List HomeAwaySplit)
    (home away : Nat) : 0 < calcWinProb ratings homeAway home away := by
  simp only [calcWinProb]
  have hp : (0 : Real) < (10 : Real) ^
      ((ratings away - (ratings home +
        max 30 ((homeAdvantageOf homeAway home : Rat) : Real))) / 400) :=
    Real.rpow_pos_of_pos (by norm_num) _
  exact div_pos one_pos (by linarith)

/-- The logistic win probability is strictly below one. -/
theorem calcWinProb_lt_one (ratings : Nat → Real) (homeAway : List HomeAwaySplit)
    (home away : Nat) : calcWinProb ratings homeAway home away < 1 := by
  simp only [calcWinProb]
  have hp : (0 : Real) < (10 : Real) ^
      ((ratings away - (ratings home +
        max 30 ((homeAdvantageOf homeAway home : Rat) : Real))) / 400) :=
    Real.rpow_pos_of_pos (by norm_num) _
  rw [div_lt_one (by linarith)]
  linarith

/-- A neutral home record, looked up or defaulted, scales to no advantage
before the floor. -/
theorem homeAdvantageOf_neutral (homeAway : List HomeAwaySplit) (tid : Nat)
    (h : homeWinRateOf homeAway tid = 1/2) :
    homeAdvantageOf homeAway tid = 0 := by
  unfold homeWinRateOf at h
  unfold homeAdvantageOf
  cases hf : homeAway.find? (fun e => e.teamId == tid) with
  | none => rfl
  | some e =>
    rw [hf] at h
    simp only at h
    show (e.homeWinRate - 1/2) * 100 = 0
    rw [h]
    norm_num

/-- C5: calculate win probability follows the floored-advantage logistic
formula with the documented defaults, so it always lies strictly between
0 and 1, and with identical ratings and a home win rate of exactly one
half the home side is still favoured, the floor of 30 rating points
applying. -/
theorem c5_win_probability (ratings : Nat → Real)
    (homeAway : List HomeAwaySplit) (home away : Nat) :
    (0 < calcWinProb ratings homeAway home away ∧
      calcWinProb ratings homeAway home away < 1) ∧
    (ratings home = ratings away → homeWinRateOf homeAway home = 1/2 →
      1/2 < calcWinProb ratings homeAway home away) := by
  refine ⟨⟨calcWinProb_pos _ _ _ _, calcWinProb_lt_one _ _ _ _⟩, ?_⟩
  intro hr hrate
  have hadv : homeAdvantageOf homeAway home = 0 :=
    homeAdvantageOf_neutral _ _ hrate
  simp only [calcWinProb, hadv, Rat.cast_zero]
  rw [max_eq_left (by norm_num : (0 : Real) ≤ 30)]
  have hexp : (ratings away - (ratings home + 30)) / 400 = -(3/40 : Real) := by
    rw [hr]
    ring
  rw [hexp]
  have ht1 : (10 : Real) ^ (-(3/40 : Real)) < 1 :=
    Real.rpow_lt_one_of_one_lt_of_neg (by norm_num) (by norm_num)
  have ht0 : (0 : Real) < (10 : Real) ^ (-(3/40 : Real)) :=
    Real.rpow_pos_of_pos (by norm_num) _
  rw [div_lt_div_iff₀ (by norm_num) (by linarith)]
  linarith

/-- Witness for C5 at a concrete instance: equal ratings of 1500 and an
absent home/away record, which defaults the home win rate to one half. -/
theorem c5_witness : 1/2 < calcWinProb (fun _ => (1500 : Real)) [] 1 2 :=
  (c5_win_probability (fun _ => (1500 : Real)) [] 1 2).2 rfl rfl

/-- C10: the rating update is zero-sum, the two moves being exact
negatives because the actual and expected scores each sum to one. -/
theorem c10_rating_sum (ratings : Nat → Real) (homeAway : List HomeAwaySplit)
    (home away : Nat) (homeWon : Bool) (k : Real) :
    (updateRatings ratings homeAway home away homeWon k).2.1
      + (updateRatings ratings homeAway home away homeWon k).2.2
      = ratings home + ratings away := by
  simp only [updateRatings]
  ring

/-- C8: run simulation hands its owning state back untouched, the trials
mutating only the per-trial clone of the standings and never calling the
rating update. -/
theorem c8_no_mutation (st : SimulatorState) (homeAway : List HomeAwaySplit)
    (iterations : Nat) (useElo : Bool) (s : List Rat) :
    (runSimulationFromState st homeAway iterations useElo s).2.standings
        = st.standings ∧
    (runSimulationFromState st homeAway iterations useElo s).2.ratings
        = st.ratings ∧
    cloneStandings st.standings = st.standings :=
  ⟨rfl, rfl, rfl⟩

/-- C7: the current playoff cutoff is the points of the fourth row of the
sorted current standings whenever at least four teams exist, looked up in
range, and the explicit undefined result otherwise. -/
theorem c7_current_cutoff (standings : List TeamStanding) :
    (4 ≤ standings.length →
      ∃ t4, (sortStandings standings)[3]? = some t4 ∧
        findCurrentPlayoffCutoff standings = some t4.points) ∧
    (standings.length < 4 → findCurrentPlayoffCutoff standings = none) := by
  have hlen := sortStandings_length standings
  constructor
  · intro h4
    have h4s : 4 ≤ (sortStandings standings).length := by omega
    have hsome : (sortStandings standings)[3]?
        = some ((sortStandings standings).get ⟨3, by omega⟩) :=
      List.getElem?_eq_getElem (by omega)
    refine ⟨_, hsome, ?_⟩
    simp only [findCurrentPlayoffCutoff]
    rw [if_pos h4s, hsome]
    rfl
  · intro hlt
    simp only [findCurrentPlayoffCutoff]
    rw [if_neg (by omega)]

/-- Witness for C7: the five-team table has a fourth-ranked row and a
cutoff, while a one-team table reports the undefined sentinel. -/
theorem c7_witness :
    (∃ t4, (sortStandings exSt5)[3]? = some t4 ∧
      findCurrentPlayoffCutoff exSt5 = some t4.points) ∧
    findCurrentPlayoffCutoff [⟨1, 0, 0, 0, 0, 0⟩] = none :=
  ⟨(c7_current_cutoff exSt5).1 (by decide),
   (c7_current_cutoff [⟨1, 0, 0, 0, 0, 0⟩]).2 (by decide)⟩

/-- C9: with zero fourth-place probability mass the expected cutoff falls
back to the larger of the season length 14 and the current cutoff plus 4
instead of dividing by zero, and otherwise the weighted estimate is
floored at the current cutoff plus 2, the current cutoff being the
fourth-ranked points of the sorted current standings. -/
theorem c9_expected_cutoff (standings : List TeamStanding)
    (posItems : List (Nat × List Rat)) :
    (fourthPlaceMass posItems = 0 →
      calculateExpectedCutoff standings posItems
        = max 14 ((findCurrentPlayoffCutoff standings).getD 0 + 4)) ∧
    (fourthPlaceMass posItems ≠ 0 →
      (findCurrentPlayoffCutoff standings).getD 0 + 2
        ≤ calculateExpectedCutoff standings posItems) := by
  have hcut : (if 4 ≤ (sortStandings standings).length
      then (((sortStandings standings)[3]?).getD default).points else 0)
      = (findCurrentPlayoffCutoff standings).getD 0 := by
    simp only [findCurrentPlayoffCutoff]
    split
    · simp
    · simp
  have hmass : ((posItems.map (fun p => (p.1, p.2.getD 3 0))).map
      (fun p => p.2)).sum = fourthPlaceMass posItems := by
    simp only [fourthPlaceMass, List.map_map]
    rfl
  constructor
  · intro h
    simp only [calculateExpectedCutoff]
    rw [hmass, if_pos h, hcut]
  · intro h
    simp only [calculateExpectedCutoff]
    rw [hmass, if_neg h, hcut]
    exact le_max_right _ _

/-- Witness for C9: a single item with no fourth-place mass takes the
fallback, and one with mass one is floored at the cutoff plus 2. -/
theorem c9_witness :
    calculateExpectedCutoff exSt5 [(1, [0, 0, 0, 0, 0])]
      = max 14 ((findCurrentPlayoffCutoff exSt5).getD 0 + 4) ∧
    (findCurrentPlayoffCutoff exSt5).getD 0 + 2
      ≤ calculateExpectedCutoff exSt5 [(1, [0, 0, 0, 1, 0])] :=
  ⟨(c9_expected_cutoff exSt5 [(1, [0, 0, 0, 0, 0])]).1 (by simp [fourthPlaceMass]),
   (c9_expected_cutoff exSt5 [(1, [0, 0, 0, 1, 0])]).2 (by simp [fourthPlaceMass])⟩

/-- C6: over one run with duplicate-free team ids, every assigned rank
slot accumulates exactly the trial count across all teams, so each team's
qualification probability lies between 0 and 1 and its position vector
sums to one. -/
theorem c6_trial_conservation (standings : List TeamStanding)
    (schedule : List Fixture) (eloP : Nat → Nat → Real) (useElo : Bool)
    (iterations : Nat) (s : List Rat)
    (hnd : (standings.map (fun t => t.team)).Nodup)
    (h10 : standings.length ≤ 10) (hit : 0 < iterations) :
    (∀ P < standings.length,
      ((standings.map (fun t => t.team)).map (fun x =>
        (((runTrials standings schedule eloP useElo iterations
            (fun _ => 0) (fun _ => List.replicate 10 0) s).2.1) x).getD P 0)).sum
        = iterations) ∧
    (∀ t ∈ standings.map (fun u => u.team),
      (0 ≤ (runSimulation standings schedule eloP iterations
              useElo s).qualificationProbability t ∧
        (runSimulation standings schedule eloP iterations
          useElo s).qualificationProbability t ≤ 1) ∧
      ((runSimulation standings schedule eloP iterations
          useElo s).positionProbability t).sum = 1) := by
  have hlen0 : ∀ x : Nat,
      ((fun _ : Nat => List.replicate 10 (0 : Nat)) x).length = 10 := by
    intro x
    simp
  constructor
  · intro P hP
    rw [runTrials_sum_at standings schedule eloP useElo hnd P hP h10
      iterations _ _ s hlen0]
    have hfun : (fun x => ((fun _ => List.replicate 10 (0 : Nat)) x).getD P 0)
        = fun _ : Nat => (0 : Nat) := by
      funext x
      exact getD_replicate_zero 10 P
    rw [hfun, sum_map_zero]
    omega
  · intro t ht
    have hcount : (standings.map (fun u => u.team)).count t = 1 :=
      List.count_eq_one_of_mem hnd ht
    have hq := runTrials_qual_le standings schedule eloP useElo iterations
      (fun _ => 0) (fun _ => List.replicate 10 0) s t
    rw [hcount] at hq
    simp only [Nat.mul_one, Nat.zero_add] at hq
    have hitq : (0 : Rat) < (iterations : Rat) := by
      exact_mod_cast hit
    refine ⟨⟨?_, ?_⟩, ?_⟩
    · simp only [runSimulation]
      positivity
    · simp only [runSimulation]
      rw [div_le_one hitq]
      exact_mod_cast hq
    · have hv := runTrials_vec_sum standings schedule eloP useElo h10
        iterations (fun _ => 0) (fun _ => List.replicate 10 0) s t hlen0
      rw [hcount] at hv
      simp only [List.sum_replicate, Nat.mul_one, Nat.zero_add, smul_eq_mul,
        Nat.zero_mul, Nat.mul_zero] at hv
      simp only [runSimulation]
      rw [sum_map_div_nat, hv]
      · exact div_self (by exact_mod_cast hit.ne')

/-- Witness for C6 on the five-team table with two trials: slot 0 sums to
the trial count, and team 4's probabilities are well formed. -/
theorem c6_witness :
    ((exSt5.map (fun t => t.team)).map (fun x =>
      (((runTrials exSt5 [] (fun _ _ => (0 : Real)) false 2
          (fun _ => 0) (fun _ => List.replicate 10 0) []).2.1) x).getD 0 0)).sum
      = 2 ∧
    (runSimulation exSt5 [] (fun _ _ => (0 : Real)) 2
        false []).qualificationProbability 4 ≤ 1 ∧
    ((runSimulation exSt5 [] (fun _ _ => (0 : Real)) 2
        false []).positionProbability 4).sum = 1 := by
  have h := c6_trial_conservation exSt5 [] (fun _ _ => (0 : Real)) false 2 []
    (by decide) (by decide) (by decide)
  exact ⟨h.1 0 (by decide), (h.2 4 (by decide)).1.2, (h.2 4 (by decide)).2⟩

/-- C3: with five teams, an empty remaining schedule and the rating model
disabled, every trial reproduces the current order, so the current top
four get qualification probability exactly one and the fifth exactly
zero. -/
theorem c3_no_fixtures (standings : List TeamStanding)
    (eloP : Nat → Nat → Real) (iterations : Nat) (s : List Rat)
    (_h5 : standings.length = 5)
    (hnd : (standings.map (fun t => t.team)).Nodup) (hit : 0 < iterations) :
    (∀ t ∈ ((sortStandings standings).take 4).map (fun u => u.team),
      (runSimulation standings [] eloP iterations
        false s).qualificationProbability t = 1) ∧
    (∀ t ∈ ((sortStandings standings).drop 4).map (fun u => u.team),
      (runSimulation standings [] eloP iterations
        false s).qualificationProbability t = 0) := by
  have hndsort : ((sortStandings standings).map (fun u => u.team)).Nodup :=
    (((sortStandings_perm standings).map (fun u => u.team)).nodup_iff).mpr hnd
  have hitq : ((iterations : Rat)) ≠ 0 := by
    exact_mod_cast hit.ne'
  constructor
  · intro t ht
    have hmem : t ∈ ((sortStandings standings).map (fun u => u.team)).take 4 := by
      rw [← List.map_take]
      exact ht
    have h1 : (((sortStandings standings).map (fun u => u.team)).take 4).count t
        = 1 :=
      List.count_eq_one_of_mem
        (List.Nodup.sublist (List.take_sublist 4 _) hndsort) hmem
    simp only [runSimulation]
    rw [runTrials_qual_empty standings eloP false iterations _ _ s t, h1]
    simp [hitq]
  · intro t ht
    have hdropmem : t ∈ ((sortStandings standings).map (fun u => u.team)).drop 4 := by
      rw [← List.map_drop]
      exact ht
    have h0 : (((sortStandings standings).map (fun u => u.team)).take 4).count t
        = 0 := by
      rw [List.count_eq_zero]
      intro hmem
      have happ : (((sortStandings standings).map (fun u => u.team)).take 4
          ++ ((sortStandings standings).map (fun u => u.team)).drop 4).Nodup := by
        rw [List.take_append_drop]
        exact hndsort
      exact (List.disjoint_of_nodup_append happ) hmem hdropmem
    simp only [runSimulation]
    rw [runTrials_qual_empty standings eloP false iterations _ _ s t, h0]
    simp

/-- Witness for C3: on the five-team table the first-ranked and the
fifth-ranked teams get probability one and zero with one trial. -/
theorem c3_witness :
    (runSimulation exSt5 [] (fun _ _ => (0 : Real)) 1
        false []).qualificationProbability 1 = 1 ∧
    (runSimulation exSt5 [] (fun _ _ => (0 : Real)) 1
        false []).qualificationProbability 5 = 0 := by
  have h := c3_no_fixtures exSt5 (fun _ _ => (0 : Real)) 1 []
    (by decide) (by decide) (by decide)
  exact ⟨h.1 1 (by decide), h.2 5 (by decide)⟩

/-- Every returned position vector of run simulation carries the ten
hard-coded slots, whatever the league size. -/
theorem runSim_posProb_len (standings : List TeamStanding)
    (schedule : List Fixture) (eloP : Nat → Nat → Real) (iterations : Nat)
    (useElo : Bool) (s : List Rat) (t : Nat) :
    ((runSimulation standings schedule eloP iterations
        useElo s).positionProbability t).length = 10 := by
  simp only [runSimulation]
  rw [List.length_map]
  exact runTrials_len standings schedule eloP useElo iterations _ _ s
    (by intro x; simp) t

/-- C1 (amended): the per-team finishing-position probability vector has
the hard-coded length 10, the tracker size of run simulation, for every
standings of at most ten teams; it equals the league size only when the
league has exactly ten teams. -/
theorem c1_position_vector_length (standings : List TeamStanding)
    (schedule : List Fixture) (eloP : Nat → Nat → Real) (iterations : Nat)
    (useElo : Bool) (s : List Rat) (_h10 : standings.length ≤ 10) (t : Nat) :
    ((runSimulation standings schedule eloP iterations
        useElo s).positionProbability t).length = 10 :=
  runSim_posProb_len standings schedule eloP iterations useElo s t

/-- Witness for C1 (amended) at the five-team table. -/
theorem c1_witness :
    ((runSimulation exSt5 [] (fun _ _ => (0 : Real)) 2
        false []).positionProbability 3).length = 10 :=
  c1_position_vector_length exSt5 [] (fun _ _ => (0 : Real)) 2 false []
    (by decide) 3

/-- Counterexample for C1 as stated: with five teams the returned vector
still has length 10, not the league size 5. -/
theorem c1_counterexample :
    exSt5.length = 5 ∧
    ((runSimulation exSt5 [] (fun _ _ => (0 : Real)) 1
        false []).positionProbability 1).length = 10 ∧
    (10 : Nat) ≠ 5 :=
  ⟨rfl, runSim_posProb_len exSt5 [] (fun _ _ => (0 : Real)) 1 false [] 1,
   by decide⟩

/-- Rows of other teams never change a given team's accumulating rating. -/
theorem initElo_skip (formFactor : List FormRecord) :
    ∀ (l : List TeamStanding) (r : Nat → Rat) (tid : Nat),
    tid ∉ l.map (fun u => u.team) →
    (l.foldl (fun r t => setFn r t.team (r t.team
        + standingContribution formFactor t)) r) tid = r tid := by
  intro l
  induction l with
  | nil => intro r tid h; rfl
  | cons u us ih =>
    intro r tid h
    simp only [List.map_cons, List.mem_cons] at h
    push_neg at h
    simp only [List.foldl_cons]
    rw [ih _ tid h.2]
    exact setFn_ne _ h.1 _

/-- C4 (amended): a team appearing in exactly one standings row gets the
initial rating 1500 plus points times 15, net-run-rate times 50, the
weighted form bonus, and the win-percentage term, the latter added only
when at least one match was played and skipped entirely when none was. -/
theorem c4_initial_rating (pre post : List TeamStanding) (t : TeamStanding)
    (formFactor : List FormRecord)
    (hpre : t.team ∉ pre.map (fun u => u.team))
    (hpost : t.team ∉ post.map (fun u => u.team)) :
    initElo (pre ++ t :: post) formFactor t.team
      = 1500 + (t.points : Rat) * 15 + t.nrr * 50 + formBonus formFactor t.team
        + (if 0 < t.played
           then ((t.wins : Rat) / (t.played : Rat) - 1/2) * 100 else 0) := by
  unfold initElo
  rw [List.foldl_append, List.foldl_cons]
  rw [initElo_skip formFactor post _ t.team hpost]
  rw [setFn_same]
  rw [initElo_skip formFactor pre _ t.team hpre]
  simp only [standingContribution]
  ring

/-- Witness for C4 (amended) on a two-team table with a played row. -/
theorem c4_witness :
    initElo ([] ++ (⟨1, 4, 3, 1, 6, 0⟩ : TeamStanding) :: [⟨2, 0, 0, 0, 0, 0⟩])
        [] 1
      = 1500 + ((6 : Int) : Rat) * 15 + (0 : Rat) * 50 + formBonus [] 1
        + (if 0 < (4 : Nat)
           then (((3 : Nat) : Rat) / ((4 : Nat) : Rat) - 1/2) * 100 else 0) :=
  c4_initial_rating [] [⟨2, 0, 0, 0, 0, 0⟩] ⟨1, 4, 3, 1, 6, 0⟩ []
    (by decide) (by decide)

/-- Counterexample for C4 as stated: a team with no matches played gets no
win-percentage adjustment from the source, while the claimed formula with
winPct read as 0 subtracts 50 rating points. -/
theorem c4_counterexample :
    initElo [⟨1, 0, 0, 0, 0, 0⟩] [] 1
      ≠ specInitRating ⟨1, 0, 0, 0, 0, 0⟩ (formBonus [] 1) := by
  have hL : initElo [⟨1, 0, 0, 0, 0, 0⟩] [] 1 = 1500 := by
    simp [initElo, setFn, standingContribution, formBonus]
  have hR : specInitRating ⟨1, 0, 0, 0, 0, 0⟩ (formBonus [] 1) = 1450 := by
    simp [specInitRating, formBonus]
    norm_num
  rw [hL, hR]
  norm_num

/-- With no remaining fixtures and no other fixtures, one conditional
trial just ranks the cloned current standings. -/
theorem simFixedTrial_empty (standings : List TeamStanding)
    (eloP : Nat → Nat → Real) (tid : Nat) (s : List Rat) :
    simFixedTrial standings [] eloP tid 0 [] s
      = (decide (tid ∈ getPlayoffTeams standings), s) := rfl

/-- All conditional trials with an empty schedule agree, counting either
every trial or none. -/
theorem simFixedCount_empty (standings : List TeamStanding)
    (eloP : Nat → Nat → Real) (tid : Nat) : ∀ (n : Nat) (s : List Rat),
    simFixedCount standings [] eloP tid 0 [] n s
      = ((if tid ∈ getPlayoffTeams standings then n else 0), s) := by
  intro n
  induction n with
  | zero =>
    intro s
    simp [simFixedCount]
  | succ m ih =>
    intro s
    simp only [simFixedCount, simFixedTrial_empty, ih]
    by_cases h : tid ∈ getPlayoffTeams standings
    · simp [h]
    · simp [h]

/-- The single win count tried for a team with no remaining fixtures. -/
theorem rangeOne : List.range 1 = [0] := rfl

/-- C2 (amended): for a team present in the standings, an empty schedule,
hence zero remaining fixtures and no other fixtures to simulate, the
path-to-playoffs result holds exactly one win-count entry, for win count
0, whose qualification probability is 1 when the team currently sits in
the top four of the tie-break sort and 0 otherwise. -/
theorem c2_path_no_fixtures (standings : List TeamStanding)
    (eloP : Nat → Nat → Real) (tid : Nat) (iterations : Nat) (s : List Rat)
    (ts : TeamStanding)
    (hfind : standings.find? (fun t => t.team == tid) = some ts)
    (hit : 0 < iterations) :
    (calcPath standings [] eloP tid iterations s).entries
      = [(0, ⟨ts.points, if tid ∈ getPlayoffTeams standings then 1 else 0⟩)] := by
  have hone : ((iterations : Rat)) / (iterations : Rat) = 1 :=
    div_self (by exact_mod_cast hit.ne')
  simp only [calcPath, hfind, List.filter_nil, List.length_nil, Nat.zero_add,
    rangeOne]
  by_cases h : tid ∈ getPlayoffTeams standings
  · simp only [calcPathLoop, simulateWithFixedWins, simFixedCount_empty, h,
      if_true, hone]
    rw [if_pos (by norm_num : (9 : Rat)/10 ≤ 1)]
    simp
  · simp only [calcPathLoop, simulateWithFixedWins, simFixedCount_empty, h,
      if_false, Nat.cast_zero, zero_div]
    rw [if_neg (by norm_num : ¬ (9 : Rat)/10 ≤ 0)]
    simp [calcPathLoop]

/-- Witness for C2 (amended): team 4 of the five-team table with an empty
schedule. -/
theorem c2_witness :
    (calcPath exSt5 [] (fun _ _ => (0 : Real)) 4 1 []).entries
      = [(0, ⟨4, if 4 ∈ getPlayoffTeams exSt5 then 1 else 0⟩)] :=
  c2_path_no_fixtures exSt5 (fun _ _ => (0 : Real)) 4 1 [] ⟨4, 0, 0, 0, 4, 0⟩
    rfl (by decide)

/-- After team 5 beats team 1 the five final points totals are all
distinct, and team 4 sits fifth whatever the perturbed net run rates are. -/
theorem c2_not_top_after (x1 x5 : Rat) :
    4 ∉ getPlayoffTeams
      [⟨1, 1, 0, 1, 10, x1⟩, ⟨2, 0, 0, 0, 8, 0⟩, ⟨3, 0, 0, 0, 6, 0⟩,
       ⟨4, 0, 0, 0, 4, 0⟩, ⟨5, 1, 1, 0, 5, x5⟩] := by
  simp [getPlayoffTeams, sortStandings, insertDesc, keyGeB]

/-- With the draw 0 the home side wins the simulated match, the rating
model's probability being strictly positive. -/
theorem c2_sim_match :
    simulateMatch exElo ⟨5, 1⟩ true [0, 0, 0] = (5, [0, 0]) := by
  have hpos : (0 : Real) < exElo 5 1 := by
    unfold exElo
    exact calcWinProb_pos _ _ _ _
  simp [simulateMatch, nextDraw, hpos]

/-- One conditional trial for team 4 with zero forced wins against the
single other-team fixture: team 5 overtakes team 4, which misses the top
four. -/
theorem c2_trial :
    simFixedTrial exSt5 [⟨5, 1⟩] exElo 4 0 [] [0, 0, 0] = (false, []) := by
  obtain ⟨x1, x5, hupd⟩ : ∃ x1 x5, updateStandings exSt5 5 1 [0, 0]
      = ([⟨1, 1, 0, 1, 10, x1⟩, ⟨2, 0, 0, 0, 8, 0⟩, ⟨3, 0, 0, 0, 6, 0⟩,
          ⟨4, 0, 0, 0, 4, 0⟩, ⟨5, 1, 1, 0, 5, x5⟩], []) := ⟨_, _, rfl⟩
  simp only [simFixedTrial, pyShuffle, List.length_nil, shuffleGo,
    List.take_zero, List.drop_zero, forceWins, forceLosses, cloneStandings]
  have hfilter : ([⟨5, 1⟩] : List Fixture).filter
      (fun m => decide (m ∉ ([] : List Fixture))) = [⟨5, 1⟩] := rfl
  rw [hfilter]
  simp only [playMatches, c2_sim_match]
  norm_num
  rw [hupd]
  simp only [playMatches]
  simp [decide_eq_false_iff_not, c2_not_top_after x1 x5]

/-- The single-trial count for team 4 is zero. -/
theorem c2_count :
    simFixedCount exSt5 [⟨5, 1⟩] exElo 4 0 [] 1 [0, 0, 0] = (0, []) := by
  simp [simFixedCount, c2_trial]

/-- Counterexample for C2 as stated: team 4 currently sits in the top
four and has no remaining fixtures, yet with one trial and the draw
stream 0,0,0 its single path entry reports qualification probability 0,
because the fixture between teams 5 and 1 is still simulated and lifts
team 5 past team 4. -/
theorem c2_counterexample :
    4 ∈ getPlayoffTeams exSt5 ∧
    (calcPath exSt5 [⟨5, 1⟩] exElo 4 1 [0, 0, 0]).entries = [(0, ⟨4, 0⟩)] ∧
    ((0 : Rat) ≠ 1) := by
  refine ⟨by decide, ?_, by norm_num⟩
  have hfind : exSt5.find? (fun t => t.team == 4) = some ⟨4, 0, 0, 0, 4, 0⟩ := rfl
  have hrem : ([⟨5, 1⟩] : List Fixture).filter
      (fun m => m.homeTeam == 4 || m.awayTeam == 4) = [] := rfl
  simp only [calcPath, hfind, hrem, List.length_nil, Nat.zero_add, rangeOne]
  simp only [calcPathLoop, simulateWithFixedWins, c2_count]
  norm_num
